import Mathlib

/-!
Verification of the log-analysis engine in `task2_log_analyzer/log_analyzer.py`.

The Python source is shallowly embedded: each Python function becomes a total
Lean function over `List Char` / `String` / `Nat` / `Int` / `ℚ`.  Python
floats in the anomaly thresholds are modelled as exact rationals (the
comparisons the analyzer makes agree with IEEE doubles on every input the
claims exercise), and CPython's backtracking regex engine is modelled by an
explicit longest-first backtracking matcher specialized to `LOG_PATTERN`.
Python exceptions that are caught and converted to `None` in the source are
modelled with `Option`.
-/

namespace LogAnalyzer

/-- Whitespace class used for Python's `\s` (re) and `str.strip`
(ASCII subset; the log grammar only involves ASCII). -/
def isSpc (c : Char) : Bool :=
  c == ' ' || c == '\t' || c == '\n' || c == '\r' || c == '\x0b' || c == '\x0c'

/-- Python `\S`: any character that is not whitespace. -/
def isNonSpc (c : Char) : Bool := !(isSpc c)

/-- All ways a greedy `p+` can match at the front of `cs`, longest first:
pairs (consumed, remainder), consumed nonempty. -/
def plusSplits (p : Char → Bool) (cs : List Char) : List (List Char × List Char) :=
  let n := (cs.takeWhile p).length
  (List.range n).map (fun i => (cs.take (n - i), cs.drop (n - i)))

/-- Match one literal character at the front. -/
def litChar (c : Char) (cs : List Char) : Option (List Char) :=
  match cs with
  | [] => none
  | c0 :: rest => if c0 = c then some rest else none

/-- Match exactly three decimal digits (`\d{3}`). -/
def digit3 (cs : List Char) : Option (List Char × List Char) :=
  match cs with
  | d1 :: d2 :: d3 :: rest =>
    if d1.isDigit && d2.isDigit && d3.isDigit then some ([d1, d2, d3], rest) else none
  | _ => none

/-- The named capture groups of `LOG_PATTERN` (the `proto` group is matched
but discarded by the source, so it is not recorded). -/
structure RawMatch where
  ip : List Char
  time : List Char
  method : List Char
  path : List Char
  status : List Char
  size : List Char
deriving DecidableEq, Repr

/-- The part of `LOG_PATTERN` after the optional protocol group:
`"\s+(?P<status>\d{3})\s+(?P<size>\S+)` (no end anchor: trailing
characters are ignored). -/
def matchTail (ip time method path : List Char) (r : List Char) : Option RawMatch :=
  (litChar '"' r).bind fun r13 =>
  (plusSplits isSpc r13).findSome? fun s14 =>
  (digit3 s14.2).bind fun stat =>
  (plusSplits isSpc stat.2).findSome? fun s16 =>
  (plusSplits isNonSpc s16.2).findSome? fun s17 =>
  some { ip := ip, time := time, method := method, path := path,
         status := stat.1, size := s17.1 }

/-- Backtracking model of `LOG_PATTERN.match` (anchored at the start only):
`^(?P<ip>\S+)\s+\S+\s+\S+\s+\[(?P<time>[^\]]+)\]\s+"(?P<method>\S+)\s+(?P<path>\S+)(?:\s+(?P<proto>[^"]+))?"\s+(?P<status>\d{3})\s+(?P<size>\S+)`.
Choices are tried in CPython's leftmost-greedy order. -/
def matchLogPattern (cs : List Char) : Option RawMatch :=
  (plusSplits isNonSpc cs).findSome? fun s1 =>
  (plusSplits isSpc s1.2).findSome? fun s2 =>
  (plusSplits isNonSpc s2.2).findSome? fun s3 =>
  (plusSplits isSpc s3.2).findSome? fun s4 =>
  (plusSplits isNonSpc s4.2).findSome? fun s4a =>
  (plusSplits isSpc s4a.2).findSome? fun s4b =>
  (litChar '[' s4b.2).bind fun r5 =>
  (plusSplits (fun c => c != ']') r5).findSome? fun s6 =>
  (litChar ']' s6.2).bind fun r7 =>
  (plusSplits isSpc r7).findSome? fun s8 =>
  (litChar '"' s8.2).bind fun r9 =>
  (plusSplits isNonSpc r9).findSome? fun s10 =>
  (plusSplits isSpc s10.2).findSome? fun s11 =>
  (plusSplits isNonSpc s11.2).findSome? fun s12 =>
  (((plusSplits isSpc s12.2).findSome? fun sA =>
    (plusSplits (fun c => c != '"') sA.2).findSome? fun sB =>
    matchTail s1.1 s6.1 s10.1 s12.1 sB.2)
   <|> matchTail s1.1 s6.1 s10.1 s12.1 s12.2)

/-- Python `str.strip()`: remove leading and trailing whitespace. -/
def stripChars (cs : List Char) : List Char :=
  ((cs.dropWhile isSpc).reverse.dropWhile isSpc).reverse

/-- Decimal value of a digit character. -/
def digitVal (c : Char) : Nat := c.toNat - 48

/-- Value of a nonempty run of decimal digits. -/
def digitsVal (cs : List Char) : Nat :=
  cs.foldl (fun a c => a * 10 + digitVal c) 0

/-- Digit tail of Python `int(str)`: digits with single underscores allowed
strictly between digits. -/
def pyNatCore : List Char → Nat → Option Nat
  | [], acc => some acc
  | '_' :: c :: rest, acc =>
    if c.isDigit then pyNatCore rest (acc * 10 + digitVal c) else none
  | c :: rest, acc =>
    if c.isDigit then pyNatCore rest (acc * 10 + digitVal c) else none

/-- Unsigned part of Python `int(str)`: must start with a digit. -/
def pyNatParse (cs : List Char) : Option Nat :=
  match cs with
  | c :: rest => if c.isDigit then pyNatCore rest (digitVal c) else none
  | [] => none

/-- Python `int(str)` on a whitespace-free token: optional sign, then
digits with optional single underscore separators.  `none` models the
`ValueError` raised on any other input. -/
def pyIntParse (cs : List Char) : Option Int :=
  match cs with
  | '+' :: rest => (pyNatParse rest).map (fun n => (n : Int))
  | '-' :: rest => (pyNatParse rest).map (fun n => -(n : Int))
  | rest => (pyNatParse rest).map (fun n => (n : Int))

/-- `_parse_size`: `-` means unknown size (`None`); otherwise `int(value)`,
with the `ValueError` of a malformed value caught and mapped to `None`. -/
def parse_size (value : List Char) : Option Int :=
  if value = ['-'] then none else pyIntParse value

/-- `LogEntry` dataclass. -/
structure LogEntry where
  ip : String
  timestamp_raw : String
  method : String
  path : String
  status : Nat
  size : Option Int
deriving DecidableEq, Repr

/-- `parse_log_line`: strip the line, match `LOG_PATTERN`, and build the
entry; the status group is three digits, so `int` of it is its value. -/
def parse_log_line (line : String) : Option LogEntry :=
  match matchLogPattern (stripChars line.toList) with
  | none => none
  | some m =>
    some { ip := String.mk m.ip, timestamp_raw := String.mk m.time,
           method := String.mk m.method, path := String.mk m.path,
           status := digitsVal m.status, size := parse_size m.size }

/-- `_strip_query`: `path.split("?", 1)[0]`. -/
def strip_query (path : String) : String :=
  String.mk (path.toList.takeWhile (fun c => c != '?'))

/-- Month number of a three-letter abbreviation, case-insensitively
(CPython strptime `%b` in the C locale). -/
def monthOf (a b c : Char) : Option Nat :=
  let s := [a.toLower, b.toLower, c.toLower]
  if s = ['j', 'a', 'n'] then some 1
  else if s = ['f', 'e', 'b'] then some 2
  else if s = ['m', 'a', 'r'] then some 3
  else if s = ['a', 'p', 'r'] then some 4
  else if s = ['m', 'a', 'y'] then some 5
  else if s = ['j', 'u', 'n'] then some 6
  else if s = ['j', 'u', 'l'] then some 7
  else if s = ['a', 'u', 'g'] then some 8
  else if s = ['s', 'e', 'p'] then some 9
  else if s = ['o', 'c', 't'] then some 10
  else if s = ['n', 'o', 'v'] then some 11
  else if s = ['d', 'e', 'c'] then some 12
  else none

/-- One- or two-digit numeric strptime field: a two-digit read is taken when
its value satisfies `p2`, otherwise a single digit satisfying `ok1`
(equivalent to CPython's alternation patterns for `%d`, `%H`, `%M`, `%S`
followed by a non-digit literal). -/
def parseField2 (p2 : Nat → Bool) (ok1 : Nat → Bool) (cs : List Char) :
    Option (Nat × List Char) :=
  match cs with
  | c1 :: c2 :: rest =>
    if c1.isDigit && c2.isDigit && p2 (digitVal c1 * 10 + digitVal c2) then
      some (digitVal c1 * 10 + digitVal c2, rest)
    else if c1.isDigit && ok1 (digitVal c1) then some (digitVal c1, c2 :: rest)
    else none
  | [c1] => if c1.isDigit && ok1 (digitVal c1) then some (digitVal c1, []) else none
  | [] => none

/-- strptime `%Y`: exactly four digits. -/
def parseYear4 (cs : List Char) : Option (Nat × List Char) :=
  match cs with
  | d1 :: d2 :: d3 :: d4 :: rest =>
    if d1.isDigit && d2.isDigit && d3.isDigit && d4.isDigit then
      some (digitsVal [d1, d2, d3, d4], rest)
    else none
  | _ => none

/-- Exactly two decimal digits. -/
def take2Digits (cs : List Char) : Option (Nat × List Char) :=
  match cs with
  | c1 :: c2 :: rest =>
    if c1.isDigit && c2.isDigit then some (digitVal c1 * 10 + digitVal c2, rest)
    else none
  | _ => none

/-- Consume an optional colon, reporting whether one was present. -/
def optColon (cs : List Char) : Bool × List Char :=
  match cs with
  | ':' :: rest => (true, rest)
  | _ => (false, cs)

/-- Fractional tz-offset digits (1 to 6), padded to microseconds. -/
def padMicros (ds : List Char) : Nat :=
  digitsVal ds * 10 ^ (6 - ds.length)

/-- Magnitude (in microseconds) of a `±HH[:?]MM[[:?]SS[.ffffff]]` tz offset
after the sign, together with the unconsumed remainder.  `none` models the
`ValueError` CPython raises on inconsistent colon use. -/
def parseTzTail (cs : List Char) : Option (Nat × List Char) :=
  (take2Digits cs).bind fun h1 =>
  let p1 := optColon h1.2
  (take2Digits p1.2).bind fun m1 =>
  match (let p2 := optColon m1.2
         match take2Digits p2.2 with
         | some s1 => some (p2.1, s1.1, s1.2)
         | none => none) with
  | some (c2, s, r5) =>
    if c2 = p1.1 then
      match r5 with
      | '.' :: r6 =>
        let ds := (r6.takeWhile Char.isDigit).take 6
        if ds.length = 0 then
          some ((h1.1 * 3600 + m1.1 * 60 + s) * 1000000, '.' :: r6)
        else
          some ((h1.1 * 3600 + m1.1 * 60 + s) * 1000000 + padMicros ds,
                r6.drop ds.length)
      | _ => some ((h1.1 * 3600 + m1.1 * 60 + s) * 1000000, r5)
    else none
  | none => some ((h1.1 * 3600 + m1.1 * 60) * 1000000, m1.2)

/-- strptime `%z` at the end of the input: `Z` or a signed offset; the whole
remainder must be consumed (strptime rejects unconverted trailing data).
Returns the offset in microseconds. -/
def parseTz (cs : List Char) : Option Int :=
  match cs with
  | 'Z' :: rest => if rest = [] then some 0 else none
  | '+' :: rest =>
    (parseTzTail rest).bind fun p => if p.2 = [] then some (p.1 : Int) else none
  | '-' :: rest =>
    (parseTzTail rest).bind fun p => if p.2 = [] then some (-(p.1 : Int)) else none
  | _ => none

/-- Gregorian leap year. -/
def isLeap (y : Nat) : Bool := (y % 4 == 0 && y % 100 != 0) || y % 400 == 0

/-- Days in a month (month is 1-12). -/
def daysInMonth (m y : Nat) : Nat :=
  if m = 2 then (if isLeap y then 29 else 28)
  else if m = 4 || m = 6 || m = 9 || m = 11 then 30
  else 31

/-- Days in the months of year `y` strictly before month `m`. -/
def daysBeforeMonth (m y : Nat) : Nat :=
  (List.range (m - 1)).foldl (fun acc i => acc + daysInMonth (i + 1) y) 0

/-- Days in the proleptic Gregorian calendar strictly before year `y`
(counted from year 1). -/
def daysBeforeYear (y : Nat) : Nat :=
  let n := y - 1
  365 * n + n / 4 - n / 100 + n / 400

/-- The naive instant as proleptic microseconds since 0001-01-01 00:00:00. -/
def naiveMicros (y m d hh mi ss : Nat) : Int :=
  (((daysBeforeYear y + daysBeforeMonth m y + (d - 1)) * 86400
      + hh * 3600 + mi * 60 + ss : Nat) : Int) * 1000000

/-- `_try_parse_apache_time`: CPython
`datetime.strptime(value, "%d/%b/%Y:%H:%M:%S %z")` with `ValueError`
mapped to `none`.  The result is the UTC instant (naive fields minus the
tz offset) in microseconds, which carries exactly the comparison and
equality behaviour of timezone-aware datetimes.  Validation mirrors the
`datetime`/`timezone` constructors: year at least 1, day within the month,
seconds at most 59, offset strictly within 24 hours. -/
def try_parse_apache_time (value : List Char) : Option Int :=
  (parseField2 (fun v => 1 ≤ v && v ≤ 31) (fun v => 1 ≤ v) value).bind fun d1 =>
  (litChar '/' d1.2).bind fun r2 =>
  match r2 with
  | a :: b :: c :: r3 =>
    (monthOf a b c).bind fun mon =>
    (litChar '/' r3).bind fun r4 =>
    (parseYear4 r4).bind fun y1 =>
    (litChar ':' y1.2).bind fun r6 =>
    (parseField2 (fun v => v ≤ 23) (fun _ => true) r6).bind fun h1 =>
    (litChar ':' h1.2).bind fun r8 =>
    (parseField2 (fun v => v ≤ 59) (fun _ => true) r8).bind fun m1 =>
    (litChar ':' m1.2).bind fun r10 =>
    (parseField2 (fun v => v ≤ 61) (fun _ => true) r10).bind fun s1 =>
    (if (s1.2.takeWhile isSpc).length = 0 then none
     else parseTz (s1.2.dropWhile isSpc)).bind fun off =>
    if 1 ≤ y1.1 && d1.1 ≤ daysInMonth mon y1.1 && s1.1 ≤ 59
        && off.natAbs < 86400000000 then
      some (naiveMicros y1.1 mon d1.1 h1.1 m1.1 s1.1 - off)
    else none
  | _ => none

/-- `SUSPICIOUS_PATH_SNIPPETS`. -/
def SUSPICIOUS_PATH_SNIPPETS : List String :=
  ["/admin", "/wp-admin", "/wp-login", "/phpmyadmin", "/.env", "/login"]

/-- Python substring containment (`needle in hay`). -/
def containsSub (needle hay : List Char) : Bool :=
  match hay with
  | [] => needle.isEmpty
  | c :: t => needle.isPrefixOf (c :: t) || containsSub needle t

/-- `DEMO_LINES`, verbatim from the source. -/
def DEMO_LINES : List String :=
  ["127.0.0.1 - - [10/Oct/2024:13:55:36 +0000] \"GET / HTTP/1.1\" 200 1024",
   "127.0.0.1 - - [10/Oct/2024:13:55:37 +0000] \"GET /products?category=oil HTTP/1.1\" 200 2048",
   "10.0.0.5 - - [10/Oct/2024:13:55:40 +0000] \"GET /admin HTTP/1.1\" 403 512",
   "10.0.0.5 - - [10/Oct/2024:13:55:41 +0000] \"GET /wp-login.php HTTP/1.1\" 404 321",
   "10.0.0.5 - - [10/Oct/2024:13:55:42 +0000] \"GET /.env HTTP/1.1\" 404 123",
   "203.0.113.9 - - [10/Oct/2024:13:56:00 +0000] \"POST /login HTTP/1.1\" 500 900",
   "203.0.113.9 - - [10/Oct/2024:13:56:10 +0000] \"GET /api/orders HTTP/1.1\" 200 777"]

/-- A Python `Counter` (an insertion-ordered dict from keys to counts),
modelled as an association list in insertion order. -/
abbrev CounterL := List (String × Nat)

/-- `counter[k] += 1`: increment the first entry with key `k`, or append
`(k, 1)` (dicts append new keys at the end). -/
def bump (l : CounterL) (k : String) : CounterL :=
  match l with
  | [] => [(k, 1)]
  | (k0, v) :: rest => if k0 = k then (k0, v + 1) :: rest else (k0, v) :: bump rest k

/-- `counter.get(k, 0)` / `counter[k]` read with default 0. -/
def getD (l : CounterL) (k : String) : Nat :=
  match l with
  | [] => 0
  | (k0, v) :: rest => if k0 = k then v else getD rest k

/-- Sum of all counts. -/
def sumCounts (l : CounterL) : Nat := (l.map Prod.snd).sum

/-- The mutable state of the aggregation loop in `analyze`. -/
structure AggState where
  total_lines : Nat
  parsed : Nat
  parse_failures : Nat
  endpoints : CounterL
  status_codes : CounterL
  ips : CounterL
  ip_errors : CounterL
  ip_suspicious_hits : CounterL
  time_first : Option Int
  time_last : Option Int
deriving DecidableEq, Repr

/-- The state before the loop. -/
def initState : AggState :=
  { total_lines := 0, parsed := 0, parse_failures := 0, endpoints := [],
    status_codes := [], ips := [], ip_errors := [], ip_suspicious_hits := [],
    time_first := none, time_last := none }

/-- The counter updates of the loop body for one parsed entry. -/
def stepCounters (st : AggState) (e : LogEntry) : AggState :=
  let endpoint := strip_query e.path
  let st1 := { st with parsed := st.parsed + 1,
                       endpoints := bump st.endpoints endpoint,
                       status_codes := bump st.status_codes (Nat.repr e.status),
                       ips := bump st.ips e.ip }
  let st2 := if 400 ≤ e.status ∧ e.status ≤ 599 then
               { st1 with ip_errors := bump st1.ip_errors e.ip } else st1
  if SUSPICIOUS_PATH_SNIPPETS.any (fun s => containsSub s.toList endpoint.toList) then
    { st2 with ip_suspicious_hits := bump st2.ip_suspicious_hits e.ip }
  else st2

/-- The time-range updates of the loop body for one parsed entry (strict
comparisons; ties keep the first-seen bound). -/
def updateTimes (st : AggState) (e : LogEntry) : AggState :=
  match try_parse_apache_time e.timestamp_raw.toList with
  | none => st
  | some ts =>
    let st1 :=
      match st.time_first with
      | none => { st with time_first := some ts }
      | some t => if ts < t then { st with time_first := some ts } else st
    match st1.time_last with
    | none => { st1 with time_last := some ts }
    | some t => if t < ts then { st1 with time_last := some ts } else st1

/-- One iteration of the `for line in lines` loop of `analyze`. -/
def stepState (st : AggState) (line : String) : AggState :=
  let st0 := { st with total_lines := st.total_lines + 1 }
  match parse_log_line line with
  | none => { st0 with parse_failures := st0.parse_failures + 1 }
  | some e => updateTimes (stepCounters st0 e) e

/-- The whole aggregation pass of `analyze`. -/
def aggregate (lines : List String) : AggState :=
  lines.foldl stepState initState

/-- Insert one element into a count-descending list, after every element
with a count at least as large (the stable position). -/
def insertDesc (x : String × Nat) : CounterL → CounterL
  | [] => [x]
  | y :: t => if x.2 < y.2 then y :: insertDesc x t else x :: y :: t

/-- `Counter.most_common()`: stable sort by count descending (CPython's
`sorted(..., key=itemgetter(1), reverse=True)` is stable, so ties keep
insertion order, which is first-encountered order). -/
def rankDesc : CounterL → CounterL
  | [] => []
  | x :: t => insertDesc x (rankDesc t)

/-- `SuspiciousIp` dataclass. -/
structure SuspiciousIp where
  ip : String
  requests : Nat
  error_rate : ℚ
  suspicious_path_hits : Nat
deriving DecidableEq, Repr

/-- The issue dicts appended to `issues`, as a tagged variant. -/
inductive Issue where
  | no_data (message : String)
  | high_error_rate (message : String) (error_rate : ℚ) (threshold : ℚ)
  | suspicious_ip_activity (message : String) (ips : List SuspiciousIp)
      (volume_threshold : Nat)
deriving DecidableEq, Repr

/-- Round half to even (the rounding of Python `round`). -/
def roundHalfEven (q : ℚ) : ℤ :=
  if q - ⌊q⌋ < 1 / 2 then ⌊q⌋
  else if (1 : ℚ) / 2 < q - ⌊q⌋ then ⌊q⌋ + 1
  else if ⌊q⌋ % 2 = 0 then ⌊q⌋ else ⌊q⌋ + 1

/-- Python `round(x, 4)`. -/
def round4 (q : ℚ) : ℚ := (roundHalfEven (q * 10000) : ℚ) / 10000

/-- `max(100, int(0.2 * total_requests))`: for every realistic count the
IEEE-double product truncates to the exact rational floor
`⌊0.2 * total_requests⌋`, which equals `total_requests / 5` in `Nat`
(`volumeThreshold_eq_floor` below proves the floor form equal). -/
def volumeThreshold (total_requests : Nat) : Nat :=
  max 100 (total_requests / 5)

/-- Key test of the error sum: `k.startswith(("4", "5"))`. -/
def startsWith45 (s : String) : Bool :=
  match s.toList with
  | c :: _ => c == '4' || c == '5'
  | [] => false

/-- `sum(int(v) for k, v in status_codes.items() if k.startswith(("4", "5")))`. -/
def errorRequests (st : AggState) : Nat :=
  sumCounts (st.status_codes.filter (fun p => startsWith45 p.1))

/-- `error_rate = (error_requests / total_requests) if total_requests else 0.0`. -/
def overallErrorRate (st : AggState) : ℚ :=
  if st.parsed = 0 then 0 else (errorRequests st : ℚ) / st.parsed

/-- The loop body over `ips.most_common()`: the suspicious verdict and the
constructed record for one `(ip, req_count)` pair. -/
def mkSuspicious (st : AggState) (thr : Nat) (p : String × Nat) :
    Option SuspiciousIp :=
  let err_count := getD st.ip_errors p.1
  let ip_err_rate : ℚ := if p.2 = 0 then 0 else (err_count : ℚ) / p.2
  let hits := getD st.ip_suspicious_hits p.1
  if thr ≤ p.2 ∨ (20 ≤ p.2 ∧ (0.3 : ℚ) ≤ ip_err_rate) ∨ 5 ≤ hits then
    some { ip := p.1, requests := p.2, error_rate := round4 ip_err_rate,
           suspicious_path_hits := hits }
  else none

/-- The `suspicious_ips` list collected by `analyze` (ranked order). -/
def suspiciousIpsOf (st : AggState) : List SuspiciousIp :=
  (rankDesc st.ips).filterMap (mkSuspicious st (volumeThreshold st.parsed))

/-- The `issues` list of the report. -/
def issuesOf (st : AggState) (error_rate_threshold : ℚ) : List Issue :=
  let base :=
    if st.parsed = 0 then [Issue.no_data "No valid log lines were parsed."]
    else if error_rate_threshold ≤ overallErrorRate st then
      [Issue.high_error_rate "High proportion of 4xx/5xx responses."
        (round4 (overallErrorRate st)) error_rate_threshold]
    else []
  let susp :=
    if st.parsed ≠ 0 ∧ suspiciousIpsOf st ≠ [] then
      [Issue.suspicious_ip_activity
        "IPs with unusual volume/errors/sensitive endpoints."
        ((suspiciousIpsOf st).take 20) (volumeThreshold st.parsed)]
    else []
  base ++ susp

/-- The report dict returned by `analyze`. -/
structure Report where
  total_lines : Nat
  parsed_requests : Nat
  parse_failures : Nat
  unique_ips : Nat
  error_rate_4xx_5xx : ℚ
  time_first : Option Int
  time_last : Option Int
  top_endpoints : CounterL
  status_code_breakdown : CounterL
  top_ips : CounterL
  issues : List Issue
deriving DecidableEq, Repr

/-- `analyze(lines, top_n=..., error_rate_threshold=...)`.  `top_n` is an
`Int`; `most_common(n)` with a nonpositive `n` yields `[]`, which
`Int.toNat` reproduces. -/
def analyze (lines : List String) (top_n : Int) (error_rate_threshold : ℚ) :
    Report :=
  let st := aggregate lines
  { total_lines := st.total_lines
    parsed_requests := st.parsed
    parse_failures := st.parse_failures
    unique_ips := st.ips.length
    error_rate_4xx_5xx := round4 (overallErrorRate st)
    time_first := st.time_first
    time_last := st.time_last
    top_endpoints := (rankDesc st.endpoints).take top_n.toNat
    status_code_breakdown := st.status_codes
    top_ips := (rankDesc st.ips).take 10
    issues := issuesOf st error_rate_threshold }

/-- Structural invariants of the aggregation state: IP keys are distinct
and in first-encountered order, every observed IP has at least one
request, error and suspicious-hit counts never exceed the request count,
and the count sums tie back to the parsed total.  All conjuncts are
decidable, so concrete states can be checked by evaluation. -/
def goodState (st : AggState) : Prop :=
  ((st.ips.map Prod.fst).Nodup) ∧
  (∀ p ∈ st.ips, 1 ≤ p.2) ∧
  (∀ p ∈ st.ip_errors, p.2 ≤ getD st.ips p.1) ∧
  (∀ p ∈ st.ip_suspicious_hits, p.2 ≤ getD st.ips p.1) ∧
  st.total_lines = st.parsed + st.parse_failures ∧
  st.parsed = sumCounts st.ips ∧
  st.parsed = sumCounts st.status_codes ∧
  st.parsed = sumCounts st.endpoints

instance instDecidableGoodState (st : AggState) : Decidable (goodState st) := by
  unfold goodState
  infer_instance

/-- A sample aggregation state with 1000 parsed requests, instantiating
the volume-threshold scenario: one IP at exactly the threshold, one just
below it with a sub-0.3 error rate and fewer than 5 suspicious hits. -/
def sampleState1000 : AggState :=
  { total_lines := 1000, parsed := 1000, parse_failures := 0,
    endpoints := [("/x", 1000)], status_codes := [("200", 1000)],
    ips := [("a", 200), ("b", 199), ("c", 601)],
    ip_errors := [("b", 59)], ip_suspicious_hits := [("b", 4)],
    time_first := none, time_last := none }

/-- The per-IP error rate the detector computes, read off the final state:
`err_count / req_count` and `0.0` for a zero request count. -/
def ipErrRate (st : AggState) (ip : String) : ℚ :=
  if getD st.ips ip = 0 then 0 else (getD st.ip_errors ip : ℚ) / getD st.ips ip

/-- The three-way suspicion criterion of the detector, expressed pointwise
over the final state: volume at or above the dynamic threshold, or at
least 20 requests with an error rate of at least 0.3, or at least 5
suspicious-path hits. -/
def suspicionCriterion (st : AggState) (ip : String) : Prop :=
  volumeThreshold st.parsed ≤ getD st.ips ip
  ∨ (20 ≤ getD st.ips ip ∧ (0.3 : ℚ) ≤ ipErrRate st ip)
  ∨ 5 ≤ getD st.ip_suspicious_hits ip

/-- A concrete input whose endpoint counter is `/a`: 3 (first seen),
`/b`: 3 (seen second), `/c`: 5 — the ranking-stability scenario. -/
def RANK_DEMO_LINES : List String :=
  ["9.9.9.9 - - [t] \"GET /a\" 200 1",
   "9.9.9.9 - - [t] \"GET /b\" 200 1",
   "9.9.9.9 - - [t] \"GET /c\" 200 1",
   "9.9.9.9 - - [t] \"GET /a\" 200 1",
   "9.9.9.9 - - [t] \"GET /b\" 200 1",
   "9.9.9.9 - - [t] \"GET /c\" 200 1",
   "9.9.9.9 - - [t] \"GET /a\" 200 1",
   "9.9.9.9 - - [t] \"GET /b\" 200 1",
   "9.9.9.9 - - [t] \"GET /c\" 200 1",
   "9.9.9.9 - - [t] \"GET /c\" 200 1",
   "9.9.9.9 - - [t] \"GET /c\" 200 1"]

/-! ### Lemmas about counters -/

theorem bump_cons_self (k : String) (v : Nat) (rest : CounterL) :
    bump ((k, v) :: rest) k = (k, v + 1) :: rest := by
  simp [bump]

theorem bump_cons_ne (k0 k : String) (v : Nat) (rest : CounterL)
    (h : k0 ≠ k) : bump ((k0, v) :: rest) k = (k0, v) :: bump rest k := by
  simp [bump, h]

theorem getD_cons_self (k : String) (v : Nat) (rest : CounterL) :
    getD ((k, v) :: rest) k = v := by
  simp [getD]

theorem getD_cons_ne (k0 k : String) (v : Nat) (rest : CounterL)
    (h : k0 ≠ k) : getD ((k0, v) :: rest) k = getD rest k := by
  simp [getD, h]

theorem sumCounts_bump (l : CounterL) (k : String) :
    sumCounts (bump l k) = sumCounts l + 1 := by
  induction l with
  | nil => simp [bump, sumCounts]
  | cons p rest ih =>
    obtain ⟨k0, v⟩ := p
    by_cases h : k0 = k
    · simp [bump, h, sumCounts]
      omega
    · simp only [bump, if_neg h, sumCounts, List.map_cons, List.sum_cons] at *
      omega

theorem getD_bump_self (l : CounterL) (k : String) :
    getD (bump l k) k = getD l k + 1 := by
  induction l with
  | nil => simp [bump, getD]
  | cons p rest ih =>
    obtain ⟨k0, v⟩ := p
    by_cases h : k0 = k
    · simp [bump, h, getD]
    · simp [bump, h, getD, ih]

theorem getD_bump_ne (l : CounterL) (k k' : String) (h : k' ≠ k) :
    getD (bump l k) k' = getD l k' := by
  have h' : k ≠ k' := Ne.symm h
  induction l with
  | nil => simp [bump, getD, h']
  | cons p rest ih =>
    obtain ⟨k0, v⟩ := p
    by_cases h0 : k0 = k
    · subst h0
      simp [bump, getD, h']
    · by_cases h1 : k0 = k'
      · subst h1
        rw [bump_cons_ne k0 k v rest h0, getD_cons_self, getD_cons_self]
      · rw [bump_cons_ne k0 k v rest h0, getD_cons_ne k0 k' v _ h1,
            getD_cons_ne k0 k' v rest h1, ih]

theorem getD_bump_le (l : CounterL) (k k' : String) :
    getD l k' ≤ getD (bump l k) k' := by
  by_cases h : k' = k
  · subst h
    rw [getD_bump_self]
    omega
  · rw [getD_bump_ne l k k' h]

theorem mem_bump (l : CounterL) (k : String) (p : String × Nat)
    (h : p ∈ bump l k) : p ∈ l ∨ p = (k, getD l k + 1) := by
  induction l with
  | nil =>
    simp only [bump, List.mem_singleton] at h
    right
    simpa [getD] using h
  | cons q rest ih =>
    obtain ⟨k0, v⟩ := q
    by_cases h0 : k0 = k
    · subst h0
      rw [bump_cons_self] at h
      rw [getD_cons_self]
      simp only [List.mem_cons] at h ⊢
      tauto
    · rw [bump_cons_ne k0 k v rest h0] at h
      rw [getD_cons_ne k0 k v rest h0]
      simp only [List.mem_cons] at h ⊢
      rcases h with h | h
      · tauto
      · rcases ih h with h' | h'
        · tauto
        · tauto

theorem keys_bump_of_mem (l : CounterL) (k : String)
    (h : k ∈ l.map Prod.fst) : (bump l k).map Prod.fst = l.map Prod.fst := by
  induction l with
  | nil => simp at h
  | cons q rest ih =>
    obtain ⟨k0, v⟩ := q
    by_cases h0 : k0 = k
    · simp [bump, h0]
    · have hr : k ∈ rest.map Prod.fst := by
        simp only [List.map_cons, List.mem_cons] at h
        rcases h with h | h
        · exact absurd h.symm h0
        · exact h
      simp [bump, h0, ih hr]

theorem keys_bump_of_not_mem (l : CounterL) (k : String)
    (h : k ∉ l.map Prod.fst) :
    (bump l k).map Prod.fst = l.map Prod.fst ++ [k] := by
  induction l with
  | nil => simp [bump]
  | cons q rest ih =>
    obtain ⟨k0, v⟩ := q
    simp only [List.map_cons, List.mem_cons] at h
    push_neg at h
    simp [bump, Ne.symm h.1, ih h.2]

theorem nodup_keys_bump (l : CounterL) (k : String)
    (h : (l.map Prod.fst).Nodup) : ((bump l k).map Prod.fst).Nodup := by
  by_cases hm : k ∈ l.map Prod.fst
  · rwa [keys_bump_of_mem l k hm]
  · rw [keys_bump_of_not_mem l k hm]
    refine List.Nodup.append h (List.nodup_singleton k) ?_
    intro a ha hak
    simp only [List.mem_singleton] at hak
    exact hm (hak ▸ ha)

theorem getD_eq_zero_of_not_mem (l : CounterL) (k : String)
    (h : k ∉ l.map Prod.fst) : getD l k = 0 := by
  induction l with
  | nil => simp [getD]
  | cons q rest ih =>
    obtain ⟨k0, v⟩ := q
    simp only [List.map_cons, List.mem_cons] at h
    push_neg at h
    simp [getD, Ne.symm h.1, ih h.2]

theorem getD_mem (l : CounterL) (k : String) (h : k ∈ l.map Prod.fst) :
    (k, getD l k) ∈ l := by
  induction l with
  | nil => simp at h
  | cons q rest ih =>
    obtain ⟨k0, v⟩ := q
    by_cases h0 : k0 = k
    · subst h0
      simp [getD]
    · have hr : k ∈ rest.map Prod.fst := by
        simp only [List.map_cons, List.mem_cons] at h
        rcases h with h | h
        · exact absurd h.symm h0
        · exact h
      simp only [getD, if_neg h0, List.mem_cons]
      right
      exact ih hr

theorem getD_eq_of_mem (l : CounterL) (k : String) (v : Nat)
    (hnd : (l.map Prod.fst).Nodup) (h : (k, v) ∈ l) : getD l k = v := by
  induction l with
  | nil => simp at h
  | cons q rest ih =>
    obtain ⟨k0, v0⟩ := q
    simp only [List.map_cons, List.nodup_cons] at hnd
    simp only [List.mem_cons] at h
    rcases h with h | h
    · obtain ⟨h1, h2⟩ := Prod.mk.injEq .. ▸ h.symm
      simp [getD, h1.symm, h2.symm]
    · have hk0 : k0 ≠ k := by
        intro he
        subst he
        exact hnd.1 (by simpa using List.mem_map_of_mem Prod.fst h)
      simp only [getD, if_neg hk0]
      exact ih hnd.2 h

theorem getD_pos_mem (l : CounterL) (k : String) (h : 0 < getD l k) :
    k ∈ l.map Prod.fst := by
  by_contra hm
  rw [getD_eq_zero_of_not_mem l k hm] at h
  omega

theorem getD_le_of_all (l : CounterL) (f : String → Nat)
    (h : ∀ p ∈ l, p.2 ≤ f p.1) (k : String) : getD l k ≤ f k := by
  induction l with
  | nil => simp [getD]
  | cons q rest ih =>
    obtain ⟨k0, v⟩ := q
    by_cases h0 : k0 = k
    · subst h0
      simpa [getD] using h (k0, v) (by simp)
    · simp only [getD, if_neg h0]
      exact ih (fun p hp => h p (by simp [hp]))

theorem sumCounts_filter_le (l : CounterL) (p : String × Nat → Bool) :
    sumCounts (l.filter p) ≤ sumCounts l := by
  induction l with
  | nil => simp [sumCounts]
  | cons q rest ih =>
    by_cases hq : p q
    · simp [sumCounts, List.filter_cons, hq] at *
      omega
    · simp [sumCounts, List.filter_cons, hq] at *
      omega

/-! ### Lemmas about the stable descending ranking -/

theorem insertDesc_perm (x : String × Nat) (l : CounterL) :
    List.Perm (insertDesc x l) (x :: l) := by
  induction l with
  | nil => simp [insertDesc]
  | cons y t ih =>
    by_cases h : x.2 < y.2
    · simp only [insertDesc, if_pos h]
      exact (ih.cons y).trans (List.Perm.swap x y t)
    · simp [insertDesc, h]

theorem rankDesc_perm (l : CounterL) : List.Perm (rankDesc l) l := by
  induction l with
  | nil => simp [rankDesc]
  | cons x t ih =>
    exact (insertDesc_perm x (rankDesc t)).trans (ih.cons x)

theorem insertDesc_sorted (x : String × Nat) (l : CounterL)
    (h : List.Pairwise (fun a b : String × Nat => b.2 ≤ a.2) l) :
    List.Pairwise (fun a b : String × Nat => b.2 ≤ a.2) (insertDesc x l) := by
  induction l with
  | nil => simp [insertDesc]
  | cons y t ih =>
    rw [List.pairwise_cons] at h
    obtain ⟨hy, ht⟩ := h
    by_cases hlt : x.2 < y.2
    · simp only [insertDesc, if_pos hlt]
      refine List.Pairwise.cons ?_ (ih ht)
      intro z hz
      rcases List.mem_cons.mp ((insertDesc_perm x t).mem_iff.mp hz) with hz | hz
      · subst hz
        omega
      · exact hy z hz
    · simp only [insertDesc, if_neg hlt]
      refine List.Pairwise.cons ?_ (List.Pairwise.cons hy ht)
      intro z hz
      simp only [List.mem_cons] at hz
      rcases hz with hz | hz
      · subst hz
        omega
      · have := hy z hz
        omega

theorem rankDesc_sorted (l : CounterL) :
    List.Pairwise (fun a b : String × Nat => b.2 ≤ a.2) (rankDesc l) := by
  induction l with
  | nil => simp [rankDesc]
  | cons x t ih => exact insertDesc_sorted x (rankDesc t) ih

theorem filter_insertDesc (x : String × Nat) (l : CounterL) (k : Nat) :
    (insertDesc x l).filter (fun p => p.2 == k)
      = if x.2 = k then x :: l.filter (fun p => p.2 == k)
        else l.filter (fun p => p.2 == k) := by
  induction l with
  | nil =>
    by_cases h : x.2 = k <;> simp [insertDesc, List.filter_cons, h]
  | cons y t ih =>
    by_cases hlt : x.2 < y.2
    · simp only [insertDesc, if_pos hlt]
      by_cases hx : x.2 = k
      · have hy : ¬(y.2 == k) = true := by simp; omega
        simp only [List.filter_cons, hy, if_neg, ih, if_pos hx]
        simp [hy]
      · by_cases hy : y.2 = k
        · simp [List.filter_cons, hy, ih, hx]
        · simp [List.filter_cons, hy, ih, hx]
    · simp only [insertDesc, if_neg hlt]
      by_cases hx : x.2 = k <;> simp [List.filter_cons, hx]

theorem rankDesc_filter_eq (l : CounterL) (k : Nat) :
    (rankDesc l).filter (fun p => p.2 == k) = l.filter (fun p => p.2 == k) := by
  induction l with
  | nil => simp [rankDesc]
  | cons x t ih =>
    simp only [rankDesc, filter_insertDesc, List.filter_cons, ih]
    by_cases hx : x.2 = k <;> simp [hx]

/-! ### Characterization of one aggregation step -/

theorem updateTimes_counters (st : AggState) (e : LogEntry) :
    (updateTimes st e).total_lines = st.total_lines ∧
    (updateTimes st e).parsed = st.parsed ∧
    (updateTimes st e).parse_failures = st.parse_failures ∧
    (updateTimes st e).endpoints = st.endpoints ∧
    (updateTimes st e).status_codes = st.status_codes ∧
    (updateTimes st e).ips = st.ips ∧
    (updateTimes st e).ip_errors = st.ip_errors ∧
    (updateTimes st e).ip_suspicious_hits = st.ip_suspicious_hits := by
  obtain ⟨a1, a2, a3, a4, a5, a6, a7, a8, tf, tl⟩ := st
  unfold updateTimes
  cases try_parse_apache_time e.timestamp_raw.toList with
  | none => simp
  | some ts =>
    cases tf <;> cases tl <;> dsimp only <;> (repeat' split) <;> simp

theorem updateTimes_none (st : AggState) (e : LogEntry)
    (h : try_parse_apache_time e.timestamp_raw.toList = none) :
    updateTimes st e = st := by
  unfold updateTimes
  rw [h]

theorem updateTimes_some (st : AggState) (e : LogEntry) (ts : Int)
    (h : try_parse_apache_time e.timestamp_raw.toList = some ts) :
    (updateTimes st e).time_first
        = (match st.time_first with
           | none => some ts
           | some t => if ts < t then some ts else some t) ∧
    (updateTimes st e).time_last
        = (match st.time_last with
           | none => some ts
           | some t => if t < ts then some ts else some t) := by
  obtain ⟨a1, a2, a3, a4, a5, a6, a7, a8, tf, tl⟩ := st
  unfold updateTimes
  rw [h]
  cases tf <;> cases tl <;> dsimp only <;> (repeat' split) <;> simp_all <;> omega

theorem stepCounters_fields (st : AggState) (e : LogEntry) :
    (stepCounters st e).total_lines = st.total_lines ∧
    (stepCounters st e).parsed = st.parsed + 1 ∧
    (stepCounters st e).parse_failures = st.parse_failures ∧
    (stepCounters st e).endpoints = bump st.endpoints (strip_query e.path) ∧
    (stepCounters st e).status_codes = bump st.status_codes (Nat.repr e.status) ∧
    (stepCounters st e).ips = bump st.ips e.ip ∧
    (stepCounters st e).ip_errors
        = (if 400 ≤ e.status ∧ e.status ≤ 599 then bump st.ip_errors e.ip
           else st.ip_errors) ∧
    (stepCounters st e).ip_suspicious_hits
        = (if SUSPICIOUS_PATH_SNIPPETS.any
              (fun s => containsSub s.toList (strip_query e.path).toList) then
             bump st.ip_suspicious_hits e.ip
           else st.ip_suspicious_hits) ∧
    (stepCounters st e).time_first = st.time_first ∧
    (stepCounters st e).time_last = st.time_last := by
  obtain ⟨a1, a2, a3, a4, a5, a6, a7, a8, tf, tl⟩ := st
  unfold stepCounters
  dsimp only
  (repeat' split) <;> simp_all

theorem stepState_parse_none (st : AggState) (line : String)
    (h : parse_log_line line = none) :
    stepState st line
      = { st with total_lines := st.total_lines + 1,
                  parse_failures := st.parse_failures + 1 } := by
  simp only [stepState, h]

theorem stepState_parse_some (st : AggState) (line : String) (e : LogEntry)
    (h : parse_log_line line = some e) :
    stepState st line
      = updateTimes
          (stepCounters { st with total_lines := st.total_lines + 1 } e) e := by
  simp only [stepState, h]

/-! ### The aggregation invariant -/

theorem goodState_init : goodState initState := by
  refine ⟨?_, ?_, ?_, ?_, ?_, ?_, ?_, ?_⟩ <;> simp [initState, sumCounts]

theorem goodState_step (st : AggState) (line : String) (h : goodState st) :
    goodState (stepState st line) := by
  obtain ⟨hnd, hpos, herr, hhits, htot, hips, hstat, hend⟩ := h
  cases hp : parse_log_line line with
  | none =>
    rw [stepState_parse_none st line hp]
    exact ⟨hnd, hpos, herr, hhits, by simp; omega, hips, hstat, hend⟩
  | some e =>
    rw [stepState_parse_some st line e hp]
    obtain ⟨u1, u2, u3, u4, u5, u6, u7, u8⟩ :=
      updateTimes_counters
        (stepCounters { st with total_lines := st.total_lines + 1 } e) e
    obtain ⟨c1, c2, c3, c4, c5, c6, c7, c8, c9, c10⟩ :=
      stepCounters_fields { st with total_lines := st.total_lines + 1 } e
    dsimp only at c1 c2 c3 c4 c5 c6 c7 c8
    refine ⟨?_, ?_, ?_, ?_, ?_, ?_, ?_, ?_⟩
    · rw [u6, c6]
      exact nodup_keys_bump st.ips e.ip hnd
    · rw [u6, c6]
      intro p hmem
      rcases mem_bump st.ips e.ip p hmem with hm | hm
      · exact hpos p hm
      · rw [hm]
        omega
    · rw [u7, c7, u6, c6]
      split
      · intro p hmem
        rcases mem_bump st.ip_errors e.ip p hmem with hm | hm
        · exact le_trans (herr p hm) (getD_bump_le st.ips e.ip p.1)
        · rw [hm]
          simp only [getD_bump_self]
          have := getD_le_of_all st.ip_errors (fun k => getD st.ips k) herr e.ip
          omega
      · intro p hmem
        exact le_trans (herr p hmem) (getD_bump_le st.ips e.ip p.1)
    · rw [u8, c8, u6, c6]
      split
      · intro p hmem
        rcases mem_bump st.ip_suspicious_hits e.ip p hmem with hm | hm
        · exact le_trans (hhits p hm) (getD_bump_le st.ips e.ip p.1)
        · rw [hm]
          simp only [getD_bump_self]
          have := getD_le_of_all st.ip_suspicious_hits
            (fun k => getD st.ips k) hhits e.ip
          omega
      · intro p hmem
        exact le_trans (hhits p hmem) (getD_bump_le st.ips e.ip p.1)
    · rw [u1, c1, u2, c2, u3, c3]
      omega
    · rw [u2, c2, u6, c6, sumCounts_bump]
      omega
    · rw [u2, c2, u5, c5, sumCounts_bump]
      omega
    · rw [u2, c2, u4, c4, sumCounts_bump]
      omega

theorem goodState_foldl (lines : List String) (st : AggState)
    (h : goodState st) : goodState (lines.foldl stepState st) := by
  induction lines generalizing st with
  | nil => exact h
  | cons line rest ih => exact ih (stepState st line) (goodState_step st line h)

theorem goodState_aggregate (lines : List String) :
    goodState (aggregate lines) :=
  goodState_foldl lines initState goodState_init

/-! ### Lemmas about the suspicious-IP computation -/

theorem mkSuspicious_isSome_iff (st : AggState) (thr : Nat) (p : String × Nat) :
    (∃ s, mkSuspicious st thr p = some s)
      ↔ (thr ≤ p.2
         ∨ (20 ≤ p.2 ∧ (0.3 : ℚ)
              ≤ (if p.2 = 0 then 0 else (getD st.ip_errors p.1 : ℚ) / p.2))
         ∨ 5 ≤ getD st.ip_suspicious_hits p.1) := by
  simp only [mkSuspicious]
  split
  · case isTrue h => simp [h]
  · case isFalse h => simp [h]

theorem mkSuspicious_some_fields (st : AggState) (thr : Nat) (p : String × Nat)
    (s : SuspiciousIp) (h : mkSuspicious st thr p = some s) :
    s.ip = p.1 ∧ s.requests = p.2
      ∧ s.error_rate
          = round4 (if p.2 = 0 then 0 else (getD st.ip_errors p.1 : ℚ) / p.2)
      ∧ s.suspicious_path_hits = getD st.ip_suspicious_hits p.1 := by
  simp only [mkSuspicious] at h
  set r : ℚ := (if p.2 = 0 then (0 : ℚ) else (getD st.ip_errors p.1 : ℚ) / p.2)
    with hr
  split at h
  · injection h with h2
    subst h2
    exact ⟨rfl, rfl, rfl, rfl⟩
  · cases h

theorem mkSuspicious_of_criterion (st : AggState) (ip : String)
    (hnd : (st.ips.map Prod.fst).Nodup)
    (hc : suspicionCriterion st ip) (v : Nat) (hv : (ip, v) ∈ st.ips) :
    ∃ s, mkSuspicious st (volumeThreshold st.parsed) (ip, v) = some s
      ∧ s.ip = ip := by
  have hgv : getD st.ips ip = v := getD_eq_of_mem st.ips ip v hnd hv
  have hcrit := hc
  rw [suspicionCriterion, ipErrRate, hgv] at hcrit
  obtain ⟨s, hs⟩ := (mkSuspicious_isSome_iff st (volumeThreshold st.parsed)
    (ip, v)).mpr (by simpa using hcrit)
  exact ⟨s, hs, (mkSuspicious_some_fields _ _ _ _ hs).1⟩

theorem suspicious_mem_iff (st : AggState) (hg : goodState st) (ip : String) :
    (∃ s ∈ suspiciousIpsOf st, s.ip = ip) ↔ suspicionCriterion st ip := by
  obtain ⟨hnd, hpos, herr, hhits, _⟩ := hg
  constructor
  · rintro ⟨s, hs, rfl⟩
    rw [suspiciousIpsOf, List.mem_filterMap] at hs
    obtain ⟨p, hp, hps⟩ := hs
    have hpi : p ∈ st.ips := (rankDesc_perm st.ips).mem_iff.mp hp
    obtain ⟨hip, hreq, _, _⟩ := mkSuspicious_some_fields _ _ _ _ hps
    have hgv : getD st.ips p.1 = p.2 := getD_eq_of_mem st.ips p.1 p.2 hnd (by
      cases p
      exact hpi)
    have hcond := (mkSuspicious_isSome_iff st (volumeThreshold st.parsed) p).mp
      ⟨s, hps⟩
    rw [suspicionCriterion, ipErrRate, hip, hgv]
    exact hcond
  · intro hc
    have hv : 1 ≤ getD st.ips ip := by
      rcases hc with h | h | h
      · have : 100 ≤ volumeThreshold st.parsed := le_max_left _ _
        omega
      · omega
      · have := getD_le_of_all st.ip_suspicious_hits
          (fun k => getD st.ips k) hhits ip
        omega
    have hmem : (ip, getD st.ips ip) ∈ st.ips :=
      getD_mem st.ips ip (getD_pos_mem st.ips ip (by omega))
    obtain ⟨s, hs, hsip⟩ :=
      mkSuspicious_of_criterion st ip hnd hc (getD st.ips ip) hmem
    refine ⟨s, ?_, hsip⟩
    rw [suspiciousIpsOf, List.mem_filterMap]
    exact ⟨(ip, getD st.ips ip),
      (rankDesc_perm st.ips).mem_iff.mpr hmem, hs⟩

theorem pairwise_filterMap_mono {α β : Type} (r : α → α → Prop)
    (r' : β → β → Prop) (f : α → Option β)
    (hf : ∀ a b sa sb, r a b → f a = some sa → f b = some sb → r' sa sb)
    (l : List α) (h : List.Pairwise r l) :
    List.Pairwise r' (l.filterMap f) := by
  induction l with
  | nil => simp
  | cons a t ih =>
    rw [List.pairwise_cons] at h
    obtain ⟨ha, ht⟩ := h
    cases hfa : f a with
    | none => simpa [List.filterMap_cons, hfa] using ih ht
    | some sa =>
      simp only [List.filterMap_cons, hfa]
      refine List.Pairwise.cons ?_ (ih ht)
      intro sb hsb
      rw [List.mem_filterMap] at hsb
      obtain ⟨b, hb, hfb⟩ := hsb
      exact hf a b sa sb (ha b hb) hfa hfb

theorem suspiciousIpsOf_sorted (st : AggState) :
    List.Pairwise (fun a b : SuspiciousIp => b.requests ≤ a.requests)
      (suspiciousIpsOf st) := by
  refine pairwise_filterMap_mono (fun a b : String × Nat => b.2 ≤ a.2) _ _
    ?_ _ (rankDesc_sorted st.ips)
  intro a b sa sb hr hfa hfb
  obtain ⟨_, ha, _, _⟩ := mkSuspicious_some_fields _ _ _ _ hfa
  obtain ⟨_, hb, _, _⟩ := mkSuspicious_some_fields _ _ _ _ hfb
  omega

theorem filter_filterMap_requests (st : AggState) (thr : Nat) (l : CounterL)
    (k : Nat) :
    (l.filterMap (mkSuspicious st thr)).filter (fun s => s.requests == k)
      = (l.filter (fun p => p.2 == k)).filterMap (mkSuspicious st thr) := by
  induction l with
  | nil => simp
  | cons p t ih =>
    cases hfp : mkSuspicious st thr p with
    | none =>
      by_cases hk : p.2 = k <;>
        simp [List.filterMap_cons, List.filter_cons, hfp, hk, ih]
    | some s =>
      obtain ⟨_, hreq, _, _⟩ := mkSuspicious_some_fields _ _ _ _ hfp
      by_cases hk : p.2 = k
      · simp [List.filterMap_cons, List.filter_cons, hfp, hk, hreq, ih]
      · have hsk : ¬s.requests = k := by omega
        simp [List.filterMap_cons, List.filter_cons, hfp, hk, hreq, hsk, ih]

theorem suspiciousIpsOf_stable (st : AggState) (k : Nat) :
    (suspiciousIpsOf st).filter (fun s => s.requests == k)
      = (st.ips.filter (fun p => p.2 == k)).filterMap
          (mkSuspicious st (volumeThreshold st.parsed)) := by
  rw [suspiciousIpsOf, filter_filterMap_requests, rankDesc_filter_eq]

/-! ### Lemmas about issue emission -/

theorem issuesOf_no_data (st : AggState) (τ : ℚ) (h : st.parsed = 0) :
    issuesOf st τ = [Issue.no_data "No valid log lines were parsed."] := by
  simp only [issuesOf, if_pos h]
  rw [if_neg]
  · simp
  · rintro ⟨h0, _⟩
    exact h0 h

theorem susp_mem_issuesOf (st : AggState) (τ : ℚ) (msg : String)
    (l : List SuspiciousIp) (thr : Nat)
    (h : Issue.suspicious_ip_activity msg l thr ∈ issuesOf st τ) :
    l = (suspiciousIpsOf st).take 20 ∧ thr = volumeThreshold st.parsed
      ∧ st.parsed ≠ 0 ∧ suspiciousIpsOf st ≠ [] := by
  rw [issuesOf] at h
  simp only [List.mem_append] at h
  rcases h with h | h
  · exfalso
    split at h <;> simp_all
  · split at h
    · case isTrue hcond =>
      simp only [List.mem_singleton, Issue.suspicious_ip_activity.injEq] at h
      exact ⟨h.2.1, h.2.2, hcond.1, hcond.2⟩
    · simp at h

theorem susp_issue_of_nonempty (st : AggState) (τ : ℚ)
    (h0 : st.parsed ≠ 0) (hne : suspiciousIpsOf st ≠ []) :
    Issue.suspicious_ip_activity
        "IPs with unusual volume/errors/sensitive endpoints."
        ((suspiciousIpsOf st).take 20) (volumeThreshold st.parsed)
      ∈ issuesOf st τ := by
  rw [issuesOf]
  simp only [List.mem_append]
  right
  rw [if_pos ⟨h0, hne⟩]
  simp

theorem high_error_mem_issuesOf (st : AggState) (τ : ℚ) (msg : String)
    (r t : ℚ)
    (h : Issue.high_error_rate msg r t ∈ issuesOf st τ) :
    r = round4 (overallErrorRate st) ∧ t = τ ∧ st.parsed ≠ 0
      ∧ τ ≤ overallErrorRate st := by
  rw [issuesOf] at h
  simp only [List.mem_append] at h
  rcases h with h | h
  · split at h
    · simp_all
    · split at h
      · case isTrue h0 hτ =>
        simp only [List.mem_singleton, Issue.high_error_rate.injEq] at h
        exact ⟨h.2.1, h.2.2, by assumption, hτ⟩
      · simp at h
  · split at h <;> simp_all

theorem high_error_issue_of_ge (st : AggState) (τ : ℚ)
    (h0 : st.parsed ≠ 0) (hτ : τ ≤ overallErrorRate st) :
    Issue.high_error_rate "High proportion of 4xx/5xx responses."
        (round4 (overallErrorRate st)) τ
      ∈ issuesOf st τ := by
  rw [issuesOf]
  simp only [List.mem_append]
  left
  rw [if_neg h0, if_pos hτ]
  simp

/-! ### Bounds on rates and rounding -/

theorem errorRequests_le_parsed (st : AggState) (hg : goodState st) :
    errorRequests st ≤ st.parsed := by
  obtain ⟨_, _, _, _, _, _, hstat, _⟩ := hg
  rw [errorRequests, hstat]
  exact sumCounts_filter_le st.status_codes _

theorem roundHalfEven_nonneg (q : ℚ) (h : 0 ≤ q) : 0 ≤ roundHalfEven q := by
  have h0 : (0 : ℤ) ≤ ⌊q⌋ := Int.floor_nonneg.mpr h
  rw [roundHalfEven]
  split
  · exact h0
  · split
    · omega
    · split <;> omega

theorem roundHalfEven_le (q : ℚ) (B : ℤ) (h : q ≤ B) : roundHalfEven q ≤ B := by
  have hf : ⌊q⌋ ≤ B := by
    have := Int.floor_le_floor h
    simpa using this
  rw [roundHalfEven]
  split
  · exact hf
  · have hne : ⌊q⌋ ≠ B := by
      intro he
      have hlt : (1 : ℚ) / 2 < q - ⌊q⌋ ∨ q - ⌊q⌋ = 1 / 2 := by
        rename_i hx
        rcases lt_or_le (q - ⌊q⌋) (1 / 2) with hc | hc
        · exact absurd hc hx
        · rcases eq_or_lt_of_le hc with hc | hc
          · exact Or.inr hc.symm
          · exact Or.inl hc
      have hgt : (0 : ℚ) < q - ⌊q⌋ := by
        rcases hlt with hc | hc <;> nlinarith
      rw [he] at hgt
      linarith
    split
    · omega
    · split <;> omega

theorem round4_bounds (q : ℚ) (h0 : 0 ≤ q) (h1 : q ≤ 1) :
    0 ≤ round4 q ∧ round4 q ≤ 1 := by
  have hn : 0 ≤ roundHalfEven (q * 10000) :=
    roundHalfEven_nonneg _ (by positivity)
  have hl : roundHalfEven (q * 10000) ≤ 10000 := by
    refine roundHalfEven_le _ 10000 ?_
    push_cast
    nlinarith
  constructor
  · rw [round4]
    positivity
  · rw [round4]
    rw [div_le_one (by norm_num)]
    exact_mod_cast hl

theorem stepState_total_lines (st : AggState) (line : String) :
    (stepState st line).total_lines = st.total_lines + 1 := by
  cases hp : parse_log_line line with
  | none => rw [stepState_parse_none st line hp]
  | some e =>
    rw [stepState_parse_some st line e hp]
    obtain ⟨u1, _⟩ := updateTimes_counters
      (stepCounters { st with total_lines := st.total_lines + 1 } e) e
    obtain ⟨c1, _⟩ :=
      stepCounters_fields { st with total_lines := st.total_lines + 1 } e
    rw [u1, c1]

theorem total_lines_foldl (lines : List String) (st : AggState) :
    (lines.foldl stepState st).total_lines = st.total_lines + lines.length := by
  induction lines generalizing st with
  | nil => simp
  | cons line rest ih =>
    rw [List.foldl_cons, ih, stepState_total_lines]
    simp
    omega

theorem floor_one_fifth (n : Nat) : ⌊(0.2 : ℚ) * n⌋ = (n / 5 : Nat) := by
  have h1 : (n / 5 : Nat) * 5 ≤ n := by omega
  have h2 : n < ((n / 5 : Nat) + 1) * 5 := by omega
  have h02 : (0.2 : ℚ) * n = (n : ℚ) / 5 := by
    rw [show (0.2 : ℚ) = 1 / 5 by norm_num]
    ring
  rw [h02, Int.floor_eq_iff]
  constructor
  · rw [le_div_iff₀ (by norm_num : (0 : ℚ) < 5)]
    exact_mod_cast h1
  · rw [div_lt_iff₀ (by norm_num : (0 : ℚ) < 5)]
    exact_mod_cast h2

/-! ### The claims -/

/-- Claim C2: for every input line sequence, after aggregation the total
line count equals parsed plus parse failures (and equals the number of
input lines), and the parsed count equals the sum of per-IP request
counts, of status-code counts, and of endpoint counts. -/
theorem C2_count_conservation (lines : List String) :
    (aggregate lines).total_lines
        = (aggregate lines).parsed + (aggregate lines).parse_failures
    ∧ (aggregate lines).total_lines = lines.length
    ∧ (aggregate lines).parsed = sumCounts (aggregate lines).ips
    ∧ (aggregate lines).parsed = sumCounts (aggregate lines).status_codes
    ∧ (aggregate lines).parsed = sumCounts (aggregate lines).endpoints := by
  obtain ⟨_, _, _, _, htot, hips, hstat, hend⟩ := goodState_aggregate lines
  refine ⟨htot, ?_, hips, hstat, hend⟩
  rw [aggregate, total_lines_foldl]
  simp [initState]

/-- Claim C9: in every final aggregation state, each observed IP has at
least one request, and its error count and suspicious-path-hit count never
exceed its request count; consequently every reported SuspiciousIp has at
least one request and an error rate in [0, 1]. -/
theorem C9_per_ip_bounds (lines : List String) :
    (∀ p ∈ (aggregate lines).ips, 1 ≤ p.2)
    ∧ (∀ ip, getD (aggregate lines).ip_errors ip
          ≤ getD (aggregate lines).ips ip)
    ∧ (∀ ip, getD (aggregate lines).ip_suspicious_hits ip
          ≤ getD (aggregate lines).ips ip)
    ∧ (∀ s ∈ suspiciousIpsOf (aggregate lines),
        1 ≤ s.requests ∧ 0 ≤ s.error_rate ∧ s.error_rate ≤ 1) := by
  obtain ⟨hnd, hpos, herr, hhits, _⟩ := goodState_aggregate lines
  refine ⟨hpos, ?_, ?_, ?_⟩
  · exact getD_le_of_all _ _ herr
  · exact getD_le_of_all _ _ hhits
  · intro s hs
    rw [suspiciousIpsOf, List.mem_filterMap] at hs
    obtain ⟨p, hp, hps⟩ := hs
    have hpi : p ∈ (aggregate lines).ips :=
      (rankDesc_perm (aggregate lines).ips).mem_iff.mp hp
    obtain ⟨hip, hreq, hrate, _⟩ := mkSuspicious_some_fields _ _ _ _ hps
    have hp2 : 1 ≤ p.2 := hpos p hpi
    have hgv : getD (aggregate lines).ips p.1 = p.2 :=
      getD_eq_of_mem _ p.1 p.2 hnd (by
        cases p
        exact hpi)
    have hb : getD (aggregate lines).ip_errors p.1 ≤ p.2 := by
      have := getD_le_of_all _ _ herr p.1
      omega
    have hrq : (if p.2 = 0 then (0 : ℚ)
        else (getD (aggregate lines).ip_errors p.1 : ℚ) / p.2)
          = (getD (aggregate lines).ip_errors p.1 : ℚ) / p.2 := by
      rw [if_neg (by omega)]
    have h0 : (0 : ℚ) ≤ (getD (aggregate lines).ip_errors p.1 : ℚ) / p.2 := by
      positivity
    have h1 : (getD (aggregate lines).ip_errors p.1 : ℚ) / p.2 ≤ 1 := by
      rw [div_le_one (by exact_mod_cast hp2.trans_lt' (by norm_num))]
      exact_mod_cast hb
    obtain ⟨hb0, hb1⟩ := round4_bounds _ h0 h1
    rw [hrate, hrq]
    exact ⟨by omega, hb0, hb1⟩

/-- Claim C8: on the seven built-in demo lines the analysis parses all 7
lines with no failures and 3 unique IPs; IP 10.0.0.5 accrues exactly 3
suspicious-path hits (below the flat floor of 5) and is not flagged
suspicious under any trigger. -/
theorem C8_demo_run :
    (analyze DEMO_LINES 10 (1 / 10)).parsed_requests = 7
    ∧ (analyze DEMO_LINES 10 (1 / 10)).parse_failures = 0
    ∧ (analyze DEMO_LINES 10 (1 / 10)).unique_ips = 3
    ∧ getD (aggregate DEMO_LINES).ip_suspicious_hits "10.0.0.5" = 3
    ∧ (3 : Nat) < 5
    ∧ ¬(∃ s ∈ suspiciousIpsOf (aggregate DEMO_LINES), s.ip = "10.0.0.5") := by
  refine ⟨by decide, by decide, by decide, by decide, by decide, by decide⟩

/-- Claim C1: in every final aggregation state with a positive parsed
count, an IP appears in the suspicious list iff it meets the three-way
criterion (volume at or above the dynamic threshold, or at least 20
requests with error rate at least 0.3, or at least 5 suspicious-path
hits); the list is sorted by request count descending with ties kept in
first-encountered order (elements of equal count appear exactly as in the
insertion-ordered IP counter); the emitted `suspicious_ip_activity` issue
carries the first 20 entries and the volume threshold, and exists exactly
when the list is non-empty. -/
theorem C1_suspicious_ips (lines : List String) (τ : ℚ)
    (h : 0 < (aggregate lines).parsed) :
    (∀ ip : String,
       (∃ s ∈ suspiciousIpsOf (aggregate lines), s.ip = ip)
         ↔ suspicionCriterion (aggregate lines) ip)
    ∧ List.Pairwise (fun a b : SuspiciousIp => b.requests ≤ a.requests)
        (suspiciousIpsOf (aggregate lines))
    ∧ (∀ k : Nat,
        (suspiciousIpsOf (aggregate lines)).filter (fun s => s.requests == k)
          = ((aggregate lines).ips.filter (fun p => p.2 == k)).filterMap
              (mkSuspicious (aggregate lines)
                (volumeThreshold (aggregate lines).parsed)))
    ∧ ((∃ msg l thr,
          Issue.suspicious_ip_activity msg l thr ∈ issuesOf (aggregate lines) τ)
         ↔ suspiciousIpsOf (aggregate lines) ≠ [])
    ∧ (∀ msg l thr,
        Issue.suspicious_ip_activity msg l thr ∈ issuesOf (aggregate lines) τ →
          l = (suspiciousIpsOf (aggregate lines)).take 20
          ∧ thr = volumeThreshold (aggregate lines).parsed
          ∧ l.length ≤ 20) := by
  refine ⟨suspicious_mem_iff (aggregate lines) (goodState_aggregate lines),
    suspiciousIpsOf_sorted (aggregate lines),
    suspiciousIpsOf_stable (aggregate lines), ?_, ?_⟩
  · constructor
    · rintro ⟨msg, l, thr, hmem⟩
      exact (susp_mem_issuesOf _ _ _ _ _ hmem).2.2.2
    · intro hne
      exact ⟨_, _, _, susp_issue_of_nonempty (aggregate lines) τ (by omega) hne⟩
  · intro msg l thr hmem
    obtain ⟨h1, h2, _, _⟩ := susp_mem_issuesOf _ _ _ _ _ hmem
    refine ⟨h1, h2, ?_⟩
    rw [h1]
    exact (List.length_take 20 _) ▸ min_le_left _ _

/-- Claim C3: a run with no parsed requests emits exactly the single
`no_data` issue; a run with parsed requests has overall error rate equal
to the sum of 4xx/5xx status-code counts over the parsed count, lying in
[0, 1], and a `high_error_rate` issue carrying the rounded rate and the
threshold is emitted exactly when the rate is at least the threshold. -/
theorem C3_error_rate_and_no_data (lines : List String) (τ : ℚ) :
    ((aggregate lines).parsed = 0 →
       issuesOf (aggregate lines) τ
         = [Issue.no_data "No valid log lines were parsed."])
    ∧ (0 < (aggregate lines).parsed →
        overallErrorRate (aggregate lines)
            = (errorRequests (aggregate lines) : ℚ) / (aggregate lines).parsed
        ∧ errorRequests (aggregate lines)
            = sumCounts ((aggregate lines).status_codes.filter
                (fun p => startsWith45 p.1))
        ∧ 0 ≤ overallErrorRate (aggregate lines)
        ∧ overallErrorRate (aggregate lines) ≤ 1
        ∧ ((∃ m r t, Issue.high_error_rate m r t ∈ issuesOf (aggregate lines) τ)
             ↔ τ ≤ overallErrorRate (aggregate lines))
        ∧ (∀ m r t,
            Issue.high_error_rate m r t ∈ issuesOf (aggregate lines) τ →
              r = round4 (overallErrorRate (aggregate lines)) ∧ t = τ)) := by
  constructor
  · exact issuesOf_no_data (aggregate lines) τ
  · intro hpos
    have h0 : (aggregate lines).parsed ≠ 0 := by omega
    have hrate : overallErrorRate (aggregate lines)
        = (errorRequests (aggregate lines) : ℚ) / (aggregate lines).parsed := by
      rw [overallErrorRate, if_neg h0]
    have hle : errorRequests (aggregate lines) ≤ (aggregate lines).parsed :=
      errorRequests_le_parsed (aggregate lines) (goodState_aggregate lines)
    refine ⟨hrate, rfl, ?_, ?_, ?_, ?_⟩
    · rw [hrate]
      positivity
    · rw [hrate, div_le_one (by exact_mod_cast hpos)]
      exact_mod_cast hle
    · constructor
      · rintro ⟨m, r, t, hmem⟩
        exact (high_error_mem_issuesOf _ _ _ _ _ hmem).2.2.2
      · intro hτ
        exact ⟨_, _, _, high_error_issue_of_ge (aggregate lines) τ h0 hτ⟩
    · intro m r t hmem
      obtain ⟨h1, h2, _, _⟩ := high_error_mem_issuesOf _ _ _ _ _ hmem
      exact ⟨h1, h2⟩

/-- Claim C4: the dynamic volume threshold is `max(100, ⌊0.2 · parsed⌋)`,
i.e. `max 100 (parsed / 5)`; with 1000 parsed requests it is 200, an IP
with exactly 200 requests is flagged suspicious, and an IP with 199
requests is not flagged when the other two triggers are absent. -/
theorem C4_volume_threshold (st : AggState) (hg : goodState st)
    (hp : st.parsed = 1000) :
    (∀ n : Nat, volumeThreshold n = max 100 (Int.toNat ⌊(0.2 : ℚ) * n⌋))
    ∧ volumeThreshold st.parsed = 200
    ∧ (∀ ip, getD st.ips ip = 200 → ∃ s ∈ suspiciousIpsOf st, s.ip = ip)
    ∧ (∀ ip, getD st.ips ip = 199 →
         ipErrRate st ip < 0.3 → getD st.ip_suspicious_hits ip < 5 →
         ¬∃ s ∈ suspiciousIpsOf st, s.ip = ip) := by
  have hform : ∀ n : Nat,
      volumeThreshold n = max 100 (Int.toNat ⌊(0.2 : ℚ) * n⌋) := by
    intro n
    rw [volumeThreshold, floor_one_fifth, Int.toNat_natCast]
  have hthr : volumeThreshold st.parsed = 200 := by
    rw [hp]
    decide
  refine ⟨hform, hthr, ?_, ?_⟩
  · intro ip hip
    refine (suspicious_mem_iff st hg ip).mpr ?_
    rw [suspicionCriterion, hthr, hip]
    left
    omega
  · intro ip hip hrate hhits hex
    have hc := (suspicious_mem_iff st hg ip).mp hex
    rw [suspicionCriterion, hthr, hip] at hc
    rcases hc with hc | hc | hc
    · omega
    · exact absurd hc.2 (not_le.mpr hrate)
    · omega

/-- Claim C5: the top-endpoints list is the endpoint counter ranked by
count descending (a permutation of it, sorted, with elements of equal
count kept exactly in first-encountered order) truncated to `top_n`; on
an input yielding `/a`: 3 (first seen), `/b`: 3, `/c`: 5 with `top_n = 2`
the result is `[/c: 5, /a: 3]`. -/
theorem C5_top_endpoints (lines : List String) (top_n : Int) (τ : ℚ) :
    (analyze lines top_n τ).top_endpoints
        = (rankDesc (aggregate lines).endpoints).take top_n.toNat
    ∧ List.Perm (rankDesc (aggregate lines).endpoints)
        (aggregate lines).endpoints
    ∧ List.Pairwise (fun a b : String × Nat => b.2 ≤ a.2)
        (rankDesc (aggregate lines).endpoints)
    ∧ (∀ k : Nat, (rankDesc (aggregate lines).endpoints).filter
            (fun p => p.2 == k)
          = (aggregate lines).endpoints.filter (fun p => p.2 == k))
    ∧ (analyze RANK_DEMO_LINES 2 τ).top_endpoints = [("/c", 5), ("/a", 3)] := by
  refine ⟨rfl, rankDesc_perm _, rankDesc_sorted _, rankDesc_filter_eq _, ?_⟩
  show (rankDesc (aggregate RANK_DEMO_LINES).endpoints).take (2 : Int).toNat
      = [("/c", 5), ("/a", 3)]
  decide

/-- Claim C6: the parser is a total function returning either one entry or
one failure signal; a line that matches the structural grammar always
yields an entry (success depends only on the structural match, never on
the size field), and a size capture that is neither `-` nor a valid
integer is mapped to an absent size rather than rejecting the line. -/
theorem C6_size_leniency (line : String) (m : RawMatch)
    (hm : matchLogPattern (stripChars line.toList) = some m) :
    (∃ e : LogEntry, parse_log_line line = some e
       ∧ e.size = parse_size m.size
       ∧ (m.size ≠ ['-'] → pyIntParse m.size = none → e.size = none))
    ∧ (∀ l : String,
        (parse_log_line l).isSome
          ↔ (matchLogPattern (stripChars l.toList)).isSome) := by
  have he : parse_log_line line
      = some { ip := String.mk m.ip, timestamp_raw := String.mk m.time,
               method := String.mk m.method, path := String.mk m.path,
               status := digitsVal m.status, size := parse_size m.size } := by
    unfold parse_log_line
    rw [hm]
  refine ⟨⟨_, he, rfl, ?_⟩, ?_⟩
  · intro h1 h2
    show parse_size m.size = none
    rw [parse_size, if_neg h1, h2]
  · intro l
    unfold parse_log_line
    cases matchLogPattern (stripChars l.toList) <;> simp

/-- Claim C7: for a parsed entry, every counter is updated whether or not
the timestamp normalizes; a failed normalization leaves the time bounds
untouched, and a successful one updates them with strict comparisons, so
a timestamp equal to the current first-seen bound leaves it in place. -/
theorem C7_timestamp_isolation (st : AggState) (line : String) (e : LogEntry)
    (hp : parse_log_line line = some e) :
    ((stepState st line).parsed = st.parsed + 1
     ∧ (stepState st line).endpoints = bump st.endpoints (strip_query e.path)
     ∧ (stepState st line).status_codes
         = bump st.status_codes (Nat.repr e.status)
     ∧ (stepState st line).ips = bump st.ips e.ip
     ∧ (stepState st line).ip_errors
         = (if 400 ≤ e.status ∧ e.status ≤ 599 then bump st.ip_errors e.ip
            else st.ip_errors)
     ∧ (stepState st line).ip_suspicious_hits
         = (if SUSPICIOUS_PATH_SNIPPETS.any
               (fun s => containsSub s.toList (strip_query e.path).toList) then
              bump st.ip_suspicious_hits e.ip
            else st.ip_suspicious_hits))
    ∧ (try_parse_apache_time e.timestamp_raw.toList = none →
        (stepState st line).time_first = st.time_first
        ∧ (stepState st line).time_last = st.time_last)
    ∧ (∀ ts : Int, try_parse_apache_time e.timestamp_raw.toList = some ts →
        (stepState st line).time_first
            = (match st.time_first with
               | none => some ts
               | some t => if ts < t then some ts else some t)
        ∧ (stepState st line).time_last
            = (match st.time_last with
               | none => some ts
               | some t => if t < ts then some ts else some t)
        ∧ (∀ t : Int, st.time_first = some t → ts = t →
             (stepState st line).time_first = st.time_first)) := by
  rw [stepState_parse_some st line e hp]
  obtain ⟨u1, u2, u3, u4, u5, u6, u7, u8⟩ :=
    updateTimes_counters
      (stepCounters { st with total_lines := st.total_lines + 1 } e) e
  obtain ⟨c1, c2, c3, c4, c5, c6, c7, c8, c9, c10⟩ :=
    stepCounters_fields { st with total_lines := st.total_lines + 1 } e
  dsimp only at c1 c2 c3 c4 c5 c6 c7 c8 c9 c10
  refine ⟨⟨?_, ?_, ?_, ?_, ?_, ?_⟩, ?_, ?_⟩
  · rw [u2, c2]
  · rw [u4, c4]
  · rw [u5, c5]
  · rw [u6, c6]
  · rw [u7, c7]
  · rw [u8, c8]
  · intro hnone
    rw [updateTimes_none _ e hnone, c9, c10]
    exact ⟨rfl, rfl⟩
  · intro ts hts
    obtain ⟨w1, w2⟩ := updateTimes_some
      (stepCounters { st with total_lines := st.total_lines + 1 } e) e ts hts
    rw [c9] at w1
    rw [c10] at w2
    refine ⟨w1, w2, ?_⟩
    intro t htf hteq
    rw [w1, htf]
    subst hteq
    simp

/-! ### Monotonicity of the matcher under appended input (no end anchor) -/

theorem findSome?_eq_some_ex {α β : Type} (f : α → Option β) (l : List α)
    (b : β) (h : l.findSome? f = some b) : ∃ a ∈ l, f a = some b := by
  induction l with
  | nil => simp [List.findSome?_nil] at h
  | cons a t ih =>
    rw [List.findSome?_cons] at h
    cases hfa : f a with
    | some b' =>
      rw [hfa] at h
      cases h
      exact ⟨a, by simp, hfa⟩
    | none =>
      rw [hfa] at h
      obtain ⟨a', ha', hfa'⟩ := ih h
      exact ⟨a', by simp [ha'], hfa'⟩

theorem findSome?_isSome_of_ex {α β : Type} (f : α → Option β) (l : List α)
    (a : α) (ha : a ∈ l) (hf : (f a).isSome) : (l.findSome? f).isSome := by
  induction l with
  | nil => simp at ha
  | cons x t ih =>
    rw [List.findSome?_cons]
    cases hfx : f x with
    | some b => simp
    | none =>
      rcases List.mem_cons.mp ha with rfl | hat
      · rw [hfx] at hf
        simp at hf
      · exact ih hat

theorem mem_plusSplits (p : Char → Bool) (cs pre rest : List Char) :
    (pre, rest) ∈ plusSplits p cs
      ↔ ∃ k, 1 ≤ k ∧ k ≤ (cs.takeWhile p).length
          ∧ pre = cs.take k ∧ rest = cs.drop k := by
  simp only [plusSplits, List.mem_map, List.mem_range]
  constructor
  · rintro ⟨i, hi, heq⟩
    rw [Prod.mk.injEq] at heq
    exact ⟨(cs.takeWhile p).length - i, by omega, by omega,
      heq.1.symm, heq.2.symm⟩
  · rintro ⟨k, hk1, hk2, hpre, hrest⟩
    refine ⟨(cs.takeWhile p).length - k, by omega, ?_⟩
    rw [Prod.mk.injEq]
    have hkk : (cs.takeWhile p).length - ((cs.takeWhile p).length - k) = k := by
      omega
    rw [hkk, hpre, hrest]
    exact ⟨rfl, rfl⟩

theorem takeWhile_length_le (p : Char → Bool) (cs : List Char) :
    (cs.takeWhile p).length ≤ cs.length := by
  induction cs with
  | nil => simp
  | cons c r ih =>
    by_cases hc : p c
    · simp only [List.takeWhile_cons, hc, if_true, List.length_cons]
      omega
    · simp [List.takeWhile_cons, hc]

theorem takeWhile_length_mono_append (p : Char → Bool) (cs t : List Char) :
    (cs.takeWhile p).length ≤ ((cs ++ t).takeWhile p).length := by
  induction cs with
  | nil => simp
  | cons c r ih =>
    by_cases hc : p c
    · simp only [List.cons_append, List.takeWhile_cons, hc, if_true,
        List.length_cons]
      omega
    · simp [List.takeWhile_cons, hc]

theorem plusSplits_append (p : Char → Bool) (cs t pre rest : List Char)
    (h : (pre, rest) ∈ plusSplits p cs) :
    (pre, rest ++ t) ∈ plusSplits p (cs ++ t) := by
  rw [mem_plusSplits] at h ⊢
  obtain ⟨k, hk1, hk2, hpre, hrest⟩ := h
  have hlen : k ≤ cs.length := hk2.trans (takeWhile_length_le p cs)
  refine ⟨k, hk1, hk2.trans (takeWhile_length_mono_append p cs t), ?_, ?_⟩
  · rw [List.take_append_of_le_length hlen, hpre]
  · rw [List.drop_append_of_le_length hlen, hrest]

theorem litChar_append (c : Char) (cs t r : List Char)
    (h : litChar c cs = some r) : litChar c (cs ++ t) = some (r ++ t) := by
  cases cs with
  | nil => simp [litChar] at h
  | cons c0 rest =>
    rw [litChar] at h
    split at h
    · cases h
      rename_i hc
      simp only [List.cons_append, litChar, if_pos hc]
    · cases h

theorem digit3_append (cs t : List Char) (ds r : List Char)
    (h : digit3 cs = some (ds, r)) : digit3 (cs ++ t) = some (ds, r ++ t) := by
  match cs, h with
  | d1 :: d2 :: d3 :: rest, h =>
    rw [digit3] at h
    split at h
    · cases h
      rename_i hd
      simp only [List.cons_append, digit3, if_pos hd]
    · cases h

theorem matchTail_append (ip time method path r t : List Char) (m : RawMatch)
    (h : matchTail ip time method path r = some m) :
    (matchTail ip time method path (r ++ t)).isSome := by
  rw [matchTail] at h
  rw [Option.bind_eq_some] at h
  obtain ⟨r13, h13, h⟩ := h
  obtain ⟨s14, hs14, h⟩ := findSome?_eq_some_ex _ _ _ h
  rw [Option.bind_eq_some] at h
  obtain ⟨stat, hstat, h⟩ := h
  obtain ⟨s16, hs16, h⟩ := findSome?_eq_some_ex _ _ _ h
  obtain ⟨s17, hs17, _⟩ := findSome?_eq_some_ex _ _ _ h
  rw [matchTail, litChar_append '"' r t r13 h13]
  rw [Option.some_bind]
  refine findSome?_isSome_of_ex _ _ (s14.1, s14.2 ++ t)
    (by
      obtain ⟨a, b⟩ := s14
      exact plusSplits_append isSpc r13 t a b hs14) ?_
  dsimp only
  rw [digit3_append s14.2 t stat.1 stat.2 (by
    obtain ⟨a, b⟩ := stat
    exact hstat)]
  rw [Option.some_bind]
  refine findSome?_isSome_of_ex _ _ (s16.1, s16.2 ++ t)
    (by
      obtain ⟨a, b⟩ := s16
      exact plusSplits_append isSpc stat.2 t a b hs16) ?_
  dsimp only
  refine findSome?_isSome_of_ex _ _ (s17.1, s17.2 ++ t)
    (by
      obtain ⟨a, b⟩ := s17
      exact plusSplits_append isNonSpc s16.2 t a b hs17) ?_
  simp

theorem orElse_eq_some_cases (x y : Option RawMatch) (m : RawMatch)
    (h : (x <|> y) = some m) : x = some m ∨ (x = none ∧ y = some m) := by
  cases x with
  | none => simp_all
  | some a => simp_all

theorem orElse_isSome_of_right (x y : Option RawMatch) (hy : y.isSome) :
    (x <|> y).isSome := by
  cases x <;> simp_all

theorem orElse_isSome_of_left (x y : Option RawMatch) (hx : x.isSome) :
    (x <|> y).isSome := by
  cases x <;> simp_all

/-- Claim C10: the grammar is anchored only at the start — appending
arbitrary characters to an input the pattern matches still yields a match
(and hence a LogEntry at the parser level when the concatenation is
already whitespace-stripped). -/
theorem C10_no_end_anchor (cs t : List Char) (m : RawMatch)
    (h : matchLogPattern cs = some m) :
    (matchLogPattern (cs ++ t)).isSome
    ∧ (stripChars (cs ++ t) = cs ++ t →
        (parse_log_line (String.mk (cs ++ t))).isSome) := by
  have hmain : (matchLogPattern (cs ++ t)).isSome := by
    rw [matchLogPattern] at h
    obtain ⟨⟨s1a, s1b⟩, hs1, h⟩ := findSome?_eq_some_ex _ _ _ h
    dsimp only at h
    obtain ⟨⟨s2a, s2b⟩, hs2, h⟩ := findSome?_eq_some_ex _ _ _ h
    dsimp only at h
    obtain ⟨⟨s3a, s3b⟩, hs3, h⟩ := findSome?_eq_some_ex _ _ _ h
    dsimp only at h
    obtain ⟨⟨s4a, s4b⟩, hs4, h⟩ := findSome?_eq_some_ex _ _ _ h
    dsimp only at h
    obtain ⟨⟨s5a, s5b⟩, hs5, h⟩ := findSome?_eq_some_ex _ _ _ h
    dsimp only at h
    obtain ⟨⟨s6a, s6b⟩, hs6, h⟩ := findSome?_eq_some_ex _ _ _ h
    dsimp only at h
    rw [Option.bind_eq_some] at h
    obtain ⟨r5, hr5, h⟩ := h
    obtain ⟨⟨s7a, s7b⟩, hs7, h⟩ := findSome?_eq_some_ex _ _ _ h
    dsimp only at h
    rw [Option.bind_eq_some] at h
    obtain ⟨r7, hr7, h⟩ := h
    obtain ⟨⟨s8a, s8b⟩, hs8, h⟩ := findSome?_eq_some_ex _ _ _ h
    dsimp only at h
    rw [Option.bind_eq_some] at h
    obtain ⟨r9, hr9, h⟩ := h
    obtain ⟨⟨s10a, s10b⟩, hs10, h⟩ := findSome?_eq_some_ex _ _ _ h
    dsimp only at h
    obtain ⟨⟨s11a, s11b⟩, hs11, h⟩ := findSome?_eq_some_ex _ _ _ h
    dsimp only at h
    obtain ⟨⟨s12a, s12b⟩, hs12, h⟩ := findSome?_eq_some_ex _ _ _ h
    dsimp only at h
    rw [matchLogPattern]
    refine findSome?_isSome_of_ex _ _ (s1a, s1b ++ t)
      (plusSplits_append isNonSpc cs t s1a s1b hs1) ?_
    dsimp only
    refine findSome?_isSome_of_ex _ _ (s2a, s2b ++ t)
      (plusSplits_append isSpc s1b t s2a s2b hs2) ?_
    dsimp only
    refine findSome?_isSome_of_ex _ _ (s3a, s3b ++ t)
      (plusSplits_append isNonSpc s2b t s3a s3b hs3) ?_
    dsimp only
    refine findSome?_isSome_of_ex _ _ (s4a, s4b ++ t)
      (plusSplits_append isSpc s3b t s4a s4b hs4) ?_
    dsimp only
    refine findSome?_isSome_of_ex _ _ (s5a, s5b ++ t)
      (plusSplits_append isNonSpc s4b t s5a s5b hs5) ?_
    dsimp only
    refine findSome?_isSome_of_ex _ _ (s6a, s6b ++ t)
      (plusSplits_append isSpc s5b t s6a s6b hs6) ?_
    dsimp only
    rw [litChar_append '[' s6b t r5 hr5, Option.some_bind]
    refine findSome?_isSome_of_ex _ _ (s7a, s7b ++ t)
      (plusSplits_append _ r5 t s7a s7b hs7) ?_
    dsimp only
    rw [litChar_append ']' s7b t r7 hr7, Option.some_bind]
    refine findSome?_isSome_of_ex _ _ (s8a, s8b ++ t)
      (plusSplits_append isSpc r7 t s8a s8b hs8) ?_
    dsimp only
    rw [litChar_append '"' s8b t r9 hr9, Option.some_bind]
    refine findSome?_isSome_of_ex _ _ (s10a, s10b ++ t)
      (plusSplits_append isNonSpc r9 t s10a s10b hs10) ?_
    dsimp only
    refine findSome?_isSome_of_ex _ _ (s11a, s11b ++ t)
      (plusSplits_append isSpc s10b t s11a s11b hs11) ?_
    dsimp only
    refine findSome?_isSome_of_ex _ _ (s12a, s12b ++ t)
      (plusSplits_append isNonSpc s11b t s12a s12b hs12) ?_
    dsimp only
    rcases orElse_eq_some_cases _ _ _ h with hA | ⟨_, hB⟩
    · obtain ⟨⟨sAa, sAb⟩, hsA, hA⟩ := findSome?_eq_some_ex _ _ _ hA
      dsimp only at hA
      obtain ⟨⟨sBa, sBb⟩, hsB, hA⟩ := findSome?_eq_some_ex _ _ _ hA
      dsimp only at hA
      refine orElse_isSome_of_left _ _ ?_
      refine findSome?_isSome_of_ex _ _ (sAa, sAb ++ t)
        (plusSplits_append isSpc s12b t sAa sAb hsA) ?_
      dsimp only
      refine findSome?_isSome_of_ex _ _ (sBa, sBb ++ t)
        (plusSplits_append _ sAb t sBa sBb hsB) ?_
      dsimp only
      exact matchTail_append s1a s7a s10a s12a sBb t m hA
    · refine orElse_isSome_of_right _ _ ?_
      exact matchTail_append s1a s7a s10a s12a s12b t m hB
  refine ⟨hmain, ?_⟩
  intro hstrip
  obtain ⟨m', hm'⟩ := Option.isSome_iff_exists.mp hmain
  unfold parse_log_line
  have hx : (String.mk (cs ++ t)).toList = cs ++ t := rfl
  rw [hx, hstrip, hm']
  simp

/-! ### Concrete instantiations of the claims with hypotheses -/

/-- Witness for C1 at the demo input. -/
theorem C1_suspicious_ips_witness :
    (∃ s ∈ suspiciousIpsOf (aggregate DEMO_LINES), s.ip = "10.0.0.5")
      ↔ suspicionCriterion (aggregate DEMO_LINES) "10.0.0.5" :=
  (C1_suspicious_ips DEMO_LINES (1 / 10) (by decide)).1 "10.0.0.5"

/-- Witness for C3 on both branches: the empty input and the demo input. -/
theorem C3_error_rate_and_no_data_witness :
    issuesOf (aggregate ([] : List String)) (1 / 10)
        = [Issue.no_data "No valid log lines were parsed."]
    ∧ 0 ≤ overallErrorRate (aggregate DEMO_LINES)
    ∧ overallErrorRate (aggregate DEMO_LINES) ≤ 1 := by
  refine ⟨(C3_error_rate_and_no_data [] (1 / 10)).1 (by decide), ?_⟩
  have h := (C3_error_rate_and_no_data DEMO_LINES (1 / 10)).2 (by decide)
  exact ⟨h.2.2.1, h.2.2.2.1⟩

/-- Witness for C4 at a concrete valid state with 1000 parsed requests. -/
theorem C4_volume_threshold_witness :
    goodState sampleState1000
    ∧ (∃ s ∈ suspiciousIpsOf sampleState1000, s.ip = "a")
    ∧ ¬(∃ s ∈ suspiciousIpsOf sampleState1000, s.ip = "b") := by
  have hrate : ipErrRate sampleState1000 "b" < 0.3 := by
    have h1 : getD sampleState1000.ips "b" = 199 := by decide
    have h2 : getD sampleState1000.ip_errors "b" = 59 := by decide
    unfold ipErrRate
    rw [h1, h2]
    norm_num
  refine ⟨by decide, ?_, ?_⟩
  · exact (C4_volume_threshold sampleState1000 (by decide) rfl).2.2.1
      "a" (by decide)
  · exact (C4_volume_threshold sampleState1000 (by decide) rfl).2.2.2
      "b" (by decide) hrate (by decide)

/-- Witness for C6: a structurally valid line with a malformed size. -/
theorem C6_size_leniency_witness :
    ∃ e : LogEntry,
      parse_log_line "1.1.1.1 - - [t] \"GET /x\" 200 12ab" = some e
      ∧ e.size = none := by
  obtain ⟨⟨e, he, _, himp⟩, _⟩ := C6_size_leniency
    "1.1.1.1 - - [t] \"GET /x\" 200 12ab"
    { ip := "1.1.1.1".toList, time := "t".toList, method := "GET".toList,
      path := "/x".toList, status := "200".toList, size := "12ab".toList }
    (by decide)
  exact ⟨e, he, himp (by decide) (by decide)⟩

/-- Witness for C7: a parsed line with an unnormalizable timestamp leaves
the time bounds unchanged. -/
theorem C7_timestamp_isolation_witness :
    (stepState initState "1.1.1.1 - - [t] \"GET /x\" 200 7").time_first
        = initState.time_first
    ∧ (stepState initState "1.1.1.1 - - [t] \"GET /x\" 200 7").time_last
        = initState.time_last :=
  (C7_timestamp_isolation initState "1.1.1.1 - - [t] \"GET /x\" 200 7"
    { ip := "1.1.1.1", timestamp_raw := "t", method := "GET", path := "/x",
      status := 200, size := some 7 } (by decide)).2.1 (by decide)

/-- Witness for C9 at the demo input. -/
theorem C9_per_ip_bounds_witness :
    1 ≤ (("127.0.0.1", 2) : String × Nat).2
    ∧ getD (aggregate DEMO_LINES).ip_errors "10.0.0.5"
        ≤ getD (aggregate DEMO_LINES).ips "10.0.0.5" :=
  ⟨(C9_per_ip_bounds DEMO_LINES).1 ("127.0.0.1", 2) (by decide),
   (C9_per_ip_bounds DEMO_LINES).2.1 "10.0.0.5"⟩

/-- Witness for C10: a matching line with trailing garbage still parses. -/
theorem C10_no_end_anchor_witness :
    (matchLogPattern ("1.1.1.1 - - [t] \"GET /x\" 200 7".toList
        ++ " extra \"garbage".toList)).isSome
    ∧ (parse_log_line (String.mk ("1.1.1.1 - - [t] \"GET /x\" 200 7".toList
        ++ " extra \"garbage".toList))).isSome := by
  refine ⟨?_, ?_⟩
  · exact (C10_no_end_anchor "1.1.1.1 - - [t] \"GET /x\" 200 7".toList
      " extra \"garbage".toList
      { ip := "1.1.1.1".toList, time := "t".toList, method := "GET".toList,
        path := "/x".toList, status := "200".toList, size := "7".toList }
      (by decide)).1
  · exact (C10_no_end_anchor "1.1.1.1 - - [t] \"GET /x\" 200 7".toList
      " extra \"garbage".toList
      { ip := "1.1.1.1".toList, time := "t".toList, method := "GET".toList,
        path := "/x".toList, status := "200".toList, size := "7".toList }
      (by decide)).2 (by decide)

end LogAnalyzer
